import Mathlib

/-!
Shallow embedding of the stock-picker repository's own logic, for checking
its natural-language specification.

The embedded code:
  * `parse_text_decision` and the result-rendering branch of the dashboard
    (`streamlit_app.py`), with Python string operations modelled faithfully
    over `List Char`;
  * the file loaders `load_json_file` / `load_markdown_file` and
    `create_performance_chart`, with the file system, the JSON parser and
    the SQLite query modelled as explicit environments (an exception
    becomes an `Except.error` value);
  * the cancel-flag control flow of the dashboard's analysis step, as a
    function from the observed flag values to the trace of events;
  * the structured-output record shapes of `crew.py`;
  * `PushNotificationTool._run` of `tools/push_notification.py`, its HTTP
    POST effect reified as a value.
-/

namespace StockPicker

/-! ## Python string primitives, modelled over `List Char`

Python `str.strip()` removes leading and trailing whitespace; the
whitespace characters that matter here are space, tab, newline, carriage
return, vertical tab and form feed. -/

def pyWS (c : Char) : Bool :=
  c = ' ' || c = '\t' || c = '\n' || c = '\r' || c = Char.ofNat 11 || c = Char.ofNat 12

def pyStripL (l : List Char) : List Char :=
  ((l.dropWhile pyWS).reverse.dropWhile pyWS).reverse

/-- Python `s.split('\n')`: always at least one piece, empty pieces kept. -/
def splitNl : List Char → List (List Char)
  | [] => [[]]
  | c :: rest =>
    if c = '\n' then [] :: splitNl rest
    else
      match splitNl rest with
      | [] => [[c]]
      | h :: t => (c :: h) :: t

/-- Python `str.lower()` restricted to ASCII letters, which is all the
needles used by the dashboard contain. -/
def pyLowerChar (c : Char) : Char :=
  if 'A' ≤ c ∧ c ≤ 'Z' then Char.ofNat (c.toNat + 32) else c

def pyLowerL (l : List Char) : List Char := l.map pyLowerChar

def isPrefixL : List Char → List Char → Bool
  | [], _ => true
  | _ :: _, [] => false
  | a :: as, b :: bs => a = b && isPrefixL as bs

/-- Python `needle in hay`: contiguous-substring containment. -/
def hasSubL (needle : List Char) : List Char → Bool
  | [] => isPrefixL needle []
  | c :: rest => isPrefixL needle (c :: rest) || hasSubL needle rest

/-- Python `s.split(' is ')`, specialised to the one multi-character
separator the dashboard uses: scan left to right, cut at each
non-overlapping occurrence of `" is "`.  The recursion jumps over the
matched separator, so it runs on fuel; the list's length is always
enough fuel. -/
def splitIsAux : Nat → List Char → List (List Char)
  | _, [] => [[]]
  | 0, l => [l]
  | n + 1, c :: rest =>
    if isPrefixL " is ".data (c :: rest) then
      [] :: splitIsAux n (rest.drop 3)
    else
      match splitIsAux n rest with
      | [] => [[c]]
      | h :: t => (c :: h) :: t

def splitIsL (l : List Char) : List (List Char) := splitIsAux l.length l

/-- What follows the first occurrence of `" is "`, when there is one. -/
def dropToIs : List Char → Option (List Char)
  | [] => none
  | c :: rest =>
    if isPrefixL " is ".data (c :: rest) then some (rest.drop 3)
    else dropToIs rest

/-- What precedes the first occurrence of `" is "` (the whole list when
there is none). -/
def takeToIs : List Char → List Char
  | [] => []
  | c :: rest =>
    if isPrefixL " is ".data (c :: rest) then []
    else c :: takeToIs rest

/-- Split at the first occurrence of a single character: `some (before,
after)` when the character occurs, `none` otherwise. -/
def breakAtL (sep : Char) : List Char → Option (List Char × List Char)
  | [] => none
  | c :: rest =>
    if c = sep then some ([], rest)
    else
      match breakAtL sep rest with
      | none => none
      | some (a, b) => some (c :: a, b)

/-- Python `':' in line`. -/
def hasColon (l : List Char) : Bool := (breakAtL ':' l).isSome

/-- Python `line.split(':')[0]`. -/
def beforeColon (l : List Char) : List Char :=
  match breakAtL ':' l with
  | some (a, _) => a
  | none => l

/-- Python `line.split(':', 1)[1]`, meaningful when `':' in line`. -/
def afterColon (l : List Char) : List Char :=
  match breakAtL ':' l with
  | some (_, b) => b
  | none => []

/-- Python `s.replace('.', '')`. -/
def removeDots (l : List Char) : List Char := l.filter (fun c => c ≠ '.')

/-- Python `' '.join(xs)`. -/
def joinSpL : List (List Char) → List Char
  | [] => []
  | [x] => x
  | x :: y :: t => x ++ ' ' :: joinSpL (y :: t)

/-! ## The decision-text parser of the dashboard (`parse_text_decision`) -/

structure RejectedCompany where
  name : String
  reason : String
deriving DecidableEq, Repr

structure DecisionResult where
  selected_company : String
  selection_reason : String
  rejected_companies : List RejectedCompany
deriving DecidableEq, Repr

/-- `result['selected_company']`: assigned only when the first line
contains `'chosen company'` case-insensitively and splitting it on
`' is '` gives more than one part; then it is `parts[1]` with `'.'`
removed and stripped. -/
def selectedCompanyOf (first_line : List Char) : String :=
  if hasSubL "chosen company".data (pyLowerL first_line) then
    match splitIsL first_line with
    | _ :: p1 :: _ => ⟨pyStripL (removeDots p1)⟩
    | _ => ""
  else ""

/-- The first loop of `parse_text_decision`: collect each non-empty
stripped line, stopping at a line that starts with
`'The companies that were not selected'`. -/
def reasonLines : List (List Char) → List (List Char)
  | [] => []
  | l :: rest =>
    let s := pyStripL l
    if !s.isEmpty && !isPrefixL "The companies that were not selected".data s then
      s :: reasonLines rest
    else if isPrefixL "The companies that were not selected".data s then
      []
    else
      reasonLines rest

/-- `result['selection_reason']`: when the collected paragraph has more
than one line, the tail joined with spaces. -/
def selectionReasonOf (lines : List (List Char)) : String :=
  match reasonLines lines with
  | _ :: rest => if !rest.isEmpty then ⟨joinSpL rest⟩ else ""
  | [] => ""

/-- The mutable state of the rejected-companies loop: whether the loop
has hit `break`, whether a line mentioning
`'companies that were not selected'` has been seen, the current company
name (`None` initially) and reason lines, and the accumulated entries. -/
structure RejState where
  halted : Bool
  inRej : Bool
  cur : Option (List Char)
  curReason : List (List Char)
  acc : List RejectedCompany

/-- Python `if current_company and current_reason: append(...)`: a string
is truthy when non-empty, a list when non-empty. -/
def pushCur (st : RejState) : List RejectedCompany :=
  match st.cur with
  | some c =>
    if !c.isEmpty && !st.curReason.isEmpty then
      st.acc ++ [⟨⟨c⟩, ⟨joinSpL st.curReason⟩⟩]
    else st.acc
  | none => st.acc

/-- The loop's first test: `'companies that were not selected' in
line.lower()` for the stripped line. -/
def markerB (rawLine : List Char) : Bool :=
  hasSubL "companies that were not selected".data (pyLowerL (pyStripL rawLine))

/-- The loop's `break` test: `line.startswith('Overall,') or
line.startswith('In conclusion')` for the stripped line. -/
def breakStartB (rawLine : List Char) : Bool :=
  isPrefixL "Overall,".data (pyStripL rawLine) ||
    isPrefixL "In conclusion".data (pyStripL rawLine)

/-- A line on which the loop actually breaks: the `break` test fires and
the marker test (checked first) does not. -/
def breakB (rawLine : List Char) : Bool := !markerB rawLine && breakStartB rawLine

/-- One iteration of the rejected-companies loop of
`parse_text_decision`. -/
def rejStep (st : RejState) (rawLine : List Char) : RejState :=
  if st.halted then st
  else if markerB rawLine then { st with inRej := true }
  else if breakStartB rawLine then { st with halted := true }
  else
    let line := pyStripL rawLine
    if st.inRej && !line.isEmpty then
      if hasColon line && !isPrefixL [' '] line then
        { st with
          acc := pushCur st
          cur := some (pyStripL (beforeColon line))
          curReason := [pyStripL (afterColon line)] }
      else
        match st.cur with
        | some c =>
          if !c.isEmpty && !line.isEmpty then
            { st with curReason := st.curReason ++ [line] }
          else st
        | none => st
    else st

def rejFold (st : RejState) : List (List Char) → RejState
  | [] => st
  | l :: rest => rejFold (rejStep st l) rest

/-- `result['rejected_companies']`: the loop over all lines followed by
the final `if current_company and current_reason: append(...)`. -/
def rejectedOf (lines : List (List Char)) : List RejectedCompany :=
  pushCur (rejFold ⟨false, false, none, [], []⟩ lines)

/-- The body of `parse_text_decision` applied to the stripped text:
`lines = text.strip().split('\n')`, then the three extractions. -/
def parseCore (stripped : List Char) : DecisionResult :=
  let lines := splitNl stripped
  let first_line := match lines with | [] => [] | l :: _ => l
  { selected_company := selectedCompanyOf first_line
    selection_reason := selectionReasonOf lines
    rejected_companies := rejectedOf lines }

/-- `parse_text_decision` of `streamlit_app.py`. -/
def parse_text_decision (text : String) : DecisionResult :=
  parseCore (pyStripL text.data)

/-- The first line the parser looks at: `lines[0]` of
`text.strip().split('\n')` (the empty line when there are none). -/
def firstLineCharsOf (text : String) : List Char :=
  match splitNl (pyStripL text.data) with
  | [] => []
  | l :: _ => l

/-- The claim's reading of the selected-company extraction: the text of
the first line after the FIRST `' is '`, with all `'.'` removed and
stripped, whenever the first line contains `'chosen company'`
case-insensitively and contains `' is '`; the empty string otherwise.
This is the statement under test, not the code's behaviour. -/
def claimSelectedCompany (text : String) : String :=
  let fl := firstLineCharsOf text
  if hasSubL "chosen company".data (pyLowerL fl) then
    match dropToIs fl with
    | some rest => ⟨pyStripL (removeDots rest)⟩
    | none => ""
  else ""

/-! ## The decision-rendering branch of the dashboard

`if parsed_decision['selected_company']: <structured cards> else:
st.markdown(decision)` — Python string truthiness is non-emptiness. -/

inductive DecisionRender
  | structured (selected reason : String) (rejected : List RejectedCompany)
  | raw (text : String)
deriving DecidableEq, Repr

def renderDecision (text : String) : DecisionRender :=
  let p := parse_text_decision text
  if !p.selected_company.isEmpty then
    .structured p.selected_company p.selection_reason p.rejected_companies
  else
    .raw text

/-! ## The cancel-flag control flow of the analysis step

The `try` block of the dashboard's analysis run, as a function from the
values the five `st.session_state.get('cancel_analysis', False)` reads
observe (checkpoints 0-3 before the crew kickoff, checkpoint 4 after it)
to the trace of UI-visible events.  The kickoff is a single opaque call:
its start and its return are adjacent events with nothing in between,
which is how the code gives the flag no point of effect inside it. -/

inductive AnalysisEvent
  | warnCancelled
  | progress (percent : Nat)
  | kickoffStart
  | kickoffEnd
  | storeResult
deriving DecidableEq, Repr

def runAnalysisStep (cancelAt : Nat → Bool) : List AnalysisEvent :=
  if cancelAt 0 then [.warnCancelled]
  else
    .progress 25 ::
      (if cancelAt 1 then [.warnCancelled]
       else
         .progress 50 ::
           (if cancelAt 2 then [.warnCancelled]
            else
              .progress 75 ::
                (if cancelAt 3 then [.warnCancelled]
                 else
                   .kickoffStart :: .kickoffEnd ::
                     (if cancelAt 4 then [.warnCancelled]
                      else [.progress 100, .storeResult]))))

/-! ## `PushNotificationTool._run`

The one `requests.post` becomes a value describing the request; the HTTP
response is an argument the function never inspects. -/

structure HttpPost where
  url : String
  fields : List (String × Option String)
deriving DecidableEq, Repr

structure HttpResponse where
  status : Nat
  body : String
deriving DecidableEq, Repr

def pushoverUrl : String := "https://api.pushover.net/1/messages.json"

def pushNotificationReturn : String := "\x7b\"Notification sent\": true\x7d"

/-- `PushNotificationTool._run(message)`: one POST to the Pushover
endpoint with form fields `token`, `user` (from the environment, absent
values modelled as `none`) and `message`, then the constant return
string.  The response argument is unused: no status check, no retry. -/
def pushNotificationRun (getenv : String → Option String)
    (response : HttpResponse) (message : String) : List HttpPost × String :=
  let post : HttpPost :=
    { url := pushoverUrl
      fields := [("token", getenv "PUSHOVER_TOKEN"),
                 ("user", getenv "PUSHOVER_USER"),
                 ("message", some message)] }
  let _ := response
  ([post], pushNotificationReturn)

/-! ## The dashboard's file loaders

`Path(filepath).exists()`, `open`/`read` and `json.load` become an
explicit environment; an exception raised while reading or parsing is an
`Except.error` carrying its message.  Each loader returns the loaded
value (or `none`) together with the list of inline error messages it
shows. -/

structure FileSys where
  pathExists : String → Bool
  readFile : String → Except String String

def errMsg (filepath e : String) : String :=
  "Error loading " ++ filepath ++ ": " ++ e

/-- `load_json_file` of `streamlit_app.py`: the JSON parser is passed in,
an exception from it is caught like any other. -/
def load_json_file {α : Type} (fs : FileSys)
    (parseJson : String → Except String α) (filepath : String) :
    Option α × List String :=
  if fs.pathExists filepath then
    match fs.readFile filepath with
    | .ok content =>
      match parseJson content with
      | .ok v => (some v, [])
      | .error e => (none, [errMsg filepath e])
    | .error e => (none, [errMsg filepath e])
  else (none, [])

/-- `load_markdown_file` of `streamlit_app.py`. -/
def load_markdown_file (fs : FileSys) (filepath : String) :
    Option String × List String :=
  if fs.pathExists filepath then
    match fs.readFile filepath with
    | .ok content => (some content, [])
    | .error e => (none, [errMsg filepath e])
  else (none, [])

/-! ## `create_performance_chart`

The function returns `None` unless the memory database exists and the
per-date aggregation query returns a non-empty frame, in which case it
returns the chart built from the frame.  The SQL execution is external
(sqlite3 + pandas): it is modelled as an oracle producing either the
aggregated rows or an exception.  The chart carries exactly the rows it
plots. -/

def performanceQuerySql : String :=
  "SELECT DATE(datetime, 'unixepoch') as date, AVG(score) as avg_score, " ++
  "COUNT(*) as task_count FROM long_term_memories " ++
  "GROUP BY DATE(datetime, 'unixepoch') ORDER BY date"

structure ChartEnv (Row : Type) where
  dbExists : Bool
  runQuery : Except String (List Row)

def chartErrMsg (e : String) : String := "Error creating chart: " ++ e

def create_performance_chart {Row : Type} (env : ChartEnv Row) :
    Option (List Row) × List String :=
  if env.dbExists then
    match env.runQuery with
    | .ok rows => if !rows.isEmpty then (some rows, []) else (none, [])
    | .error e => (none, [chartErrMsg e])
  else (none, [])

/-! ## The structured-output record shapes of `crew.py` -/

structure TrendingCompany where
  name : String
  ticker : String
  reason : String
deriving DecidableEq, Repr

structure TrendingCompanyList where
  companies : List TrendingCompany
deriving DecidableEq, Repr

structure TrendingCompanyResearch where
  name : String
  market_position : String
  future_outlook : String
  investment_potential : String
deriving DecidableEq, Repr

structure TrendingCompanyResearchList where
  reports : List TrendingCompanyResearch
deriving DecidableEq, Repr

/-! ## Provenance of rejected-company entries

Vocabulary for stating where an entry of `rejected_companies` can come
from, used by the invariant over the rejected-companies loop. -/

/-- The stripped text before the first `':'` of the stripped line: the
name a rejected-companies entry gets from its header line. -/
def headerNameOf (rawLine : List Char) : String :=
  ⟨pyStripL (beforeColon (pyStripL rawLine))⟩

/-- Where a rejected-company name can come from: some decomposition of
the line list into `p1 ++ hdr :: p2` where a line of `p1` mentions
`companies that were not selected` (so `hdr` is in the rejected
section), no line of `p1` nor `hdr` itself makes the loop break (so
`hdr` comes before any effective `Overall,` / `In conclusion` line),
`hdr` contains `':'`, and the name is the stripped text before the
first `':'` of `hdr`. -/
def GoodName (lines : List (List Char)) (n : String) : Prop :=
  ∃ p1 hdr p2, lines = p1 ++ hdr :: p2 ∧
    (∃ m ∈ p1, markerB m = true) ∧
    (∀ l ∈ p1, breakB l = false) ∧
    breakB hdr = false ∧
    hasColon (pyStripL hdr) = true ∧
    n = headerNameOf hdr

/-- The loop invariant tying the state after some processed prefix of
the lines to where its recorded names came from: no processed line was
an effective break line while the loop is live, a marker line was seen
whenever the section flag is set, and every accumulated name (and the
pending current name, when non-empty) is a `GoodName` of the prefix. -/
def RejInv (pre : List (List Char)) (st : RejState) : Prop :=
  (st.halted = false → ∀ l ∈ pre, breakB l = false) ∧
  (st.inRej = true → ∃ m ∈ pre, markerB m = true) ∧
  (∀ e ∈ st.acc, e.name ≠ "" ∧ GoodName pre e.name) ∧
  (∀ c, st.cur = some c → c.isEmpty = false → GoodName pre (String.mk c))

end StockPicker

namespace StockPicker

/-! ## Helper lemmas about the `' is '` split -/

theorem splitIsAux_fuel : ∀ (n : Nat) (l : List Char), l.length ≤ n →
    splitIsAux n l = splitIsAux l.length l := by
  intro n
  induction n using Nat.strong_induction_on with
  | _ n ih =>
    intro l hl
    cases l with
    | nil => cases n <;> rfl
    | cons c rest =>
      cases n with
      | zero => simp at hl
      | succ n =>
        simp only [List.length_cons, splitIsAux]
        by_cases hp : isPrefixL " is ".data (c :: rest) = true
        · simp only [if_pos hp]
          have hd : (rest.drop 3).length ≤ rest.length := by
            simp [List.length_drop]
          rw [ih n (by omega) (rest.drop 3) (by simp at hl; omega),
              ih rest.length (by simp at hl; omega) (rest.drop 3) hd]
        · simp only [if_neg hp]
          rw [ih n (by omega) rest (by simp at hl; omega)]

theorem splitIsL_cons (c : Char) (rest : List Char) :
    splitIsL (c :: rest) =
      if isPrefixL " is ".data (c :: rest) then [] :: splitIsL (rest.drop 3)
      else
        match splitIsL rest with
        | [] => [[c]]
        | h :: t => (c :: h) :: t := by
  unfold splitIsL
  simp only [List.length_cons, splitIsAux]
  by_cases hp : isPrefixL " is ".data (c :: rest) = true
  · simp only [if_pos hp]
    rw [splitIsAux_fuel rest.length (rest.drop 3) (by simp [List.length_drop])]
  · simp only [if_neg hp]

theorem splitIsL_eq_aux : ∀ (n : Nat) (l : List Char), l.length ≤ n →
    splitIsL l = (match dropToIs l with
      | none => [l]
      | some r => takeToIs l :: splitIsL r) := by
  intro n
  induction n using Nat.strong_induction_on with
  | _ n ih =>
    intro l hl
    cases l with
    | nil => rfl
    | cons c rest =>
      cases n with
      | zero => simp at hl
      | succ n =>
        rw [splitIsL_cons]
        simp only [List.length_cons] at hl
        by_cases hp : isPrefixL " is ".data (c :: rest) = true
        · simp only [if_pos hp, dropToIs, takeToIs, hp, if_true]
        · rw [if_neg hp]
          simp only [dropToIs, takeToIs]
          rw [if_neg hp, if_neg hp]
          have h2 := ih n (by omega) rest (by omega)
          cases hd : dropToIs rest with
          | none => rw [hd] at h2; rw [h2]
          | some r => rw [hd] at h2; rw [h2]

theorem splitIsL_eq (l : List Char) :
    splitIsL l = (match dropToIs l with
      | none => [l]
      | some r => takeToIs l :: splitIsL r) :=
  splitIsL_eq_aux l.length l (le_refl _)

theorem splitIsL_ne_nil (l : List Char) : splitIsL l ≠ [] := by
  rw [splitIsL_eq]
  cases dropToIs l <;> simp

theorem takeToIs_of_none (l : List Char) (h : dropToIs l = none) :
    takeToIs l = l := by
  induction l with
  | nil => rfl
  | cons c rest ih =>
    simp only [dropToIs] at h
    by_cases hp : isPrefixL " is ".data (c :: rest) = true
    · simp [hp] at h
    · simp only [takeToIs]
      rw [if_neg hp]
      rw [if_neg hp] at h
      rw [ih h]

theorem dropToIs_isSome_eq_hasSub (l : List Char) :
    (dropToIs l).isSome = hasSubL " is ".data l := by
  induction l with
  | nil => rfl
  | cons c rest ih =>
    simp only [dropToIs, hasSubL]
    by_cases hp : isPrefixL " is ".data (c :: rest) = true
    · simp [hp]
    · simp only [Bool.not_eq_true] at hp
      simp [hp, ih]

/-! ## Claim C1 -/

/-- C1, amended: when the first line of the stripped decision text
contains `chosen company` case-insensitively and contains `' is '`,
`parse_text_decision` returns as `selected_company` the segment of that
first line strictly between the first `' is '` and the next occurrence
of `' is '` (the rest of the line when there is no second occurrence),
with all `'.'` characters removed and surrounding whitespace stripped;
when the first line lacks `chosen company` or lacks `' is '`,
`selected_company` is the empty string.  (The claim as frozen says
"after the first `' is '`", which `C1_counterexample` refutes.) -/
theorem C1_selected_company (text : String) :
    (hasSubL "chosen company".data (pyLowerL (firstLineCharsOf text)) = true →
      hasSubL " is ".data (firstLineCharsOf text) = true →
      ∃ r, dropToIs (firstLineCharsOf text) = some r ∧
        (parse_text_decision text).selected_company =
          String.mk (pyStripL (removeDots (takeToIs r)))) ∧
    ((hasSubL "chosen company".data (pyLowerL (firstLineCharsOf text)) = false ∨
      hasSubL " is ".data (firstLineCharsOf text) = false) →
      (parse_text_decision text).selected_company = "") := by
  have hb : (parse_text_decision text).selected_company
      = selectedCompanyOf (firstLineCharsOf text) := rfl
  constructor
  · intro hc his
    rw [← dropToIs_isSome_eq_hasSub] at his
    obtain ⟨r, hr⟩ := Option.isSome_iff_exists.mp his
    refine ⟨r, hr, ?_⟩
    obtain ⟨h1, t1, hsplit⟩ : ∃ h1 t1, splitIsL r = h1 :: t1 := by
      cases hs : splitIsL r with
      | nil => exact absurd hs (splitIsL_ne_nil r)
      | cons a b => exact ⟨a, b, rfl⟩
    have hfl2 : splitIsL (firstLineCharsOf text)
        = takeToIs (firstLineCharsOf text) :: splitIsL r := by
      rw [splitIsL_eq (firstLineCharsOf text), hr]
    have hh : h1 = takeToIs r := by
      have he := splitIsL_eq r
      rw [hsplit] at he
      cases hd : dropToIs r with
      | none =>
        rw [hd] at he
        have hrr : h1 = r := by injection he
        rw [hrr, takeToIs_of_none r hd]
      | some r2 =>
        rw [hd] at he
        injection he
    rw [hb]
    unfold selectedCompanyOf
    rw [if_pos hc, hfl2, hsplit, hh]
  · intro h
    rw [hb]
    unfold selectedCompanyOf
    rcases h with h | h
    · rw [if_neg (by simp [h])]
    · rw [← dropToIs_isSome_eq_hasSub] at h
      have hd : dropToIs (firstLineCharsOf text) = none := by
        cases hx : dropToIs (firstLineCharsOf text) with
        | none => rfl
        | some r => rw [hx] at h; simp at h
      rw [splitIsL_eq (firstLineCharsOf text), hd]
      split <;> rfl

/-- C1, counterexample to the claim as frozen: on a first line with two
occurrences of `' is '` the code keeps only the text up to the second
occurrence (`parts[1]` of the split), not everything after the first
`' is '` as the claim states. -/
theorem C1_counterexample :
    (parse_text_decision
        "The chosen company for investment is Alpha Corp is great.").selected_company
      = "Alpha Corp" ∧
    claimSelectedCompany
        "The chosen company for investment is Alpha Corp is great."
      = "Alpha Corp is great" ∧
    (parse_text_decision
        "The chosen company for investment is Alpha Corp is great.").selected_company
      ≠ claimSelectedCompany
          "The chosen company for investment is Alpha Corp is great." := by
  refine ⟨by decide, by decide, by decide⟩

/-! ## Claim C2 -/

/-- C2: in every run of the analysis step, if the cancel flag reads true
at any of the four checkpoints before the crew kickoff, the kickoff
never happens and the run warns that it was cancelled; and whenever the
kickoff starts it also completes, whatever the flag does. -/
theorem C2_cancel_semantics (cancelAt : Nat → Bool) :
    ((∃ i, i ≤ 3 ∧ cancelAt i = true) →
       AnalysisEvent.kickoffStart ∉ runAnalysisStep cancelAt ∧
       AnalysisEvent.warnCancelled ∈ runAnalysisStep cancelAt) ∧
    (AnalysisEvent.kickoffStart ∈ runAnalysisStep cancelAt →
       AnalysisEvent.kickoffEnd ∈ runAnalysisStep cancelAt) := by
  constructor
  · rintro ⟨i, hi, hc⟩
    unfold runAnalysisStep
    cases h0 : cancelAt 0 <;> cases h1 : cancelAt 1 <;> cases h2 : cancelAt 2 <;>
      cases h3 : cancelAt 3 <;> simp_all
    interval_cases i <;> simp_all
  · intro hk
    unfold runAnalysisStep at hk ⊢
    cases h0 : cancelAt 0 <;> cases h1 : cancelAt 1 <;> cases h2 : cancelAt 2 <;>
      cases h3 : cancelAt 3 <;> simp_all

/-- C2 witness: with the flag already true at checkpoint 0, the kickoff
does not happen and the cancellation warning shows. -/
theorem C2_witness :
    AnalysisEvent.kickoffStart ∉ runAnalysisStep (fun _ => true) ∧
    AnalysisEvent.warnCancelled ∈ runAnalysisStep (fun _ => true) :=
  (C2_cancel_semantics (fun _ => true)).1 ⟨0, by decide, rfl⟩

/-! ## Claim C3 -/

/-- C3: for every message, `PushNotificationTool._run` issues exactly
one POST, to the Pushover endpoint, with exactly the three form fields
`token`, `user` and `message`, and returns the constant string whatever
the HTTP response is: no status check, no retry. -/
theorem C3_push_notification (getenv : String → Option String)
    (r r2 : HttpResponse) (message : String) :
    (pushNotificationRun getenv r message).1.length = 1 ∧
    (∀ p ∈ (pushNotificationRun getenv r message).1,
        p.url = "https://api.pushover.net/1/messages.json" ∧
        p.fields = [("token", getenv "PUSHOVER_TOKEN"),
                    ("user", getenv "PUSHOVER_USER"),
                    ("message", some message)]) ∧
    (pushNotificationRun getenv r message).2 = "\x7b\"Notification sent\": true\x7d" ∧
    pushNotificationRun getenv r message = pushNotificationRun getenv r2 message := by
  refine ⟨rfl, ?_, rfl, rfl⟩
  intro p hp
  simp only [pushNotificationRun, List.mem_singleton] at hp
  subst hp
  exact ⟨rfl, rfl⟩

/-! ## Claim C4 -/

/-- C4: the two loaders never propagate an exception; each returns the
loaded content with no message when the file exists and reading (and,
for JSON, parsing) succeeds, returns `none` silently when the file does
not exist, and returns `none` with one inline error message when any
exception is raised while loading. -/
theorem C4_loaders_never_raise {α : Type} (fs : FileSys)
    (parseJson : String → Except String α) (p : String) :
    (fs.pathExists p = false →
        load_json_file fs parseJson p = (none, []) ∧
        load_markdown_file fs p = (none, [])) ∧
    (∀ c, fs.pathExists p = true → fs.readFile p = .ok c →
        load_markdown_file fs p = (some c, []) ∧
        (∀ v, parseJson c = .ok v → load_json_file fs parseJson p = (some v, [])) ∧
        (∀ e, parseJson c = .error e →
            load_json_file fs parseJson p = (none, [errMsg p e]))) ∧
    (∀ e, fs.pathExists p = true → fs.readFile p = .error e →
        load_json_file fs parseJson p = (none, [errMsg p e]) ∧
        load_markdown_file fs p = (none, [errMsg p e])) := by
  refine ⟨fun h => ?_, fun c h1 h2 => ?_, fun e h1 h2 => ?_⟩ <;>
    simp_all [load_json_file, load_markdown_file]

/-! ## Claim C5 -/

/-- C5: whenever `parse_text_decision` yields an empty
`selected_company`, the dashboard falls back to rendering the raw
Markdown text unchanged, with no error. -/
theorem C5_unparseable_falls_back_to_raw (text : String)
    (h : (parse_text_decision text).selected_company = "") :
    renderDecision text = .raw text := by
  simp [renderDecision, h]
  rfl

/-- C5 witness: a text the parser cannot interpret renders as raw
Markdown. -/
theorem C5_witness : renderDecision "hello" = DecisionRender.raw "hello" :=
  C5_unparseable_falls_back_to_raw "hello" (by decide)

/-! ## Claim C6 -/

/-- C6: the structured-output record shapes are exactly the data of the
spec: `TrendingCompany` is precisely a name, ticker and reason (all
strings), `TrendingCompanyResearch` precisely the four analysis strings,
and the two list wrappers precisely a list of the respective records —
each pairing with the field tuple is a bijection, so there is no other
field and no other content. -/
theorem C6_record_shapes :
    Function.Bijective (fun c : TrendingCompany => (c.name, c.ticker, c.reason)) ∧
    Function.Bijective (fun l : TrendingCompanyList => l.companies) ∧
    Function.Bijective (fun r : TrendingCompanyResearch =>
      (r.name, r.market_position, r.future_outlook, r.investment_potential)) ∧
    Function.Bijective (fun l : TrendingCompanyResearchList => l.reports) := by
  refine ⟨⟨?_, ?_⟩, ⟨?_, ?_⟩, ⟨?_, ?_⟩, ⟨?_, ?_⟩⟩
  · rintro ⟨a, b, c⟩ ⟨a2, b2, c2⟩ h; simpa using h
  · rintro ⟨a, b, c⟩; exact ⟨⟨a, b, c⟩, rfl⟩
  · rintro ⟨a⟩ ⟨a2⟩ h; simpa using h
  · rintro a; exact ⟨⟨a⟩, rfl⟩
  · rintro ⟨a, b, c, d⟩ ⟨a2, b2, c2, d2⟩ h; simpa using h
  · rintro ⟨a, b, c, d⟩; exact ⟨⟨a, b, c, d⟩, rfl⟩
  · rintro ⟨a⟩ ⟨a2⟩ h; simpa using h
  · rintro a; exact ⟨⟨a⟩, rfl⟩

/-! ## Claim C7 -/

/-- C7: `create_performance_chart` returns `None` when the memory
database file does not exist, when the per-date aggregation query comes
back empty, and when the query raises (then with one inline error
message); it returns the chart rows exactly when the database exists and
the aggregation is non-empty, and it never propagates an exception. -/
theorem C7_chart_none_cases {Row : Type} (env : ChartEnv Row) :
    (env.dbExists = false → create_performance_chart env = (none, [])) ∧
    (env.runQuery = .ok [] → (create_performance_chart env).1 = none) ∧
    (∀ e, env.runQuery = .error e →
        (create_performance_chart env).1 = none ∧
        (env.dbExists = true →
          create_performance_chart env = (none, [chartErrMsg e]))) ∧
    (∀ rows, env.dbExists = true → env.runQuery = .ok rows → rows ≠ [] →
        create_performance_chart env = (some rows, [])) := by
  refine ⟨fun h => ?_, fun h => ?_, fun e h => ?_, fun rows h1 h2 h3 => ?_⟩ <;>
    cases hd : env.dbExists <;> simp_all [create_performance_chart]

/-! ## Claim C8 -/

/-- C8: `parse_text_decision` is deterministic and pure — its embedding
is a function of the input text alone, so equal inputs give equal
outputs. -/
theorem C8_parse_deterministic (t1 t2 : String) (h : t1 = t2) :
    parse_text_decision t1 = parse_text_decision t2 := by rw [h]

/-- C8 witness: the parser agrees with itself on a concrete input. -/
theorem C8_witness :
    parse_text_decision "Technology" = parse_text_decision "Technology" :=
  C8_parse_deterministic "Technology" "Technology" rfl

/-! ## Claim C9 -/

/-- C9: `parse_text_decision` is total (its embedding is a total
function, so no input raises), and on any input whose stripped text is
empty it returns exactly the empty result record. -/
theorem C9_total_empty_strip (text : String) (h : pyStripL text.data = []) :
    parse_text_decision text = ⟨"", "", []⟩ := by
  unfold parse_text_decision
  rw [h]
  rfl

/-- C9 witness: whitespace-only input yields the empty result record. -/
theorem C9_witness : parse_text_decision " \n\t " = ⟨"", "", []⟩ :=
  C9_total_empty_strip " \n\t " (by decide)

/-! ## Claim C10: helper lemmas and the loop invariant -/

theorem stringMk_ne_empty (c : List Char) (h : c.isEmpty = false) :
    String.mk c ≠ "" := by
  intro he
  have hc : c = [] := congrArg String.data he
  rw [hc] at h
  simp at h

theorem mem_pushCur (st : RejState) (e : RejectedCompany) (he : e ∈ pushCur st) :
    e ∈ st.acc ∨ ∃ c, st.cur = some c ∧ c.isEmpty = false ∧
      e = ⟨String.mk c, String.mk (joinSpL st.curReason)⟩ := by
  unfold pushCur at he
  split at he
  next c heq =>
    split at he
    next hcond =>
      rcases List.mem_append.mp he with h1 | h1
      · exact Or.inl h1
      · simp at h1
        refine Or.inr ⟨c, heq, ?_, h1⟩
        revert hcond
        cases c.isEmpty <;> simp
    next => exact Or.inl he
  next heq => exact Or.inl he

theorem goodName_mono (pre : List (List Char)) (l : List Char) (n : String)
    (h : GoodName pre n) : GoodName (pre ++ [l]) n := by
  obtain ⟨p1, hdr, p2, hpre, hm, hb, hbh, hc, hn⟩ := h
  exact ⟨p1, hdr, p2 ++ [l], by rw [hpre]; simp, hm, hb, hbh, hc, hn⟩

theorem rejInv_step (pre : List (List Char)) (st : RejState) (l : List Char)
    (h : RejInv pre st) : RejInv (pre ++ [l]) (rejStep st l) := by
  obtain ⟨hHalt, hRej, hAcc, hCur⟩ := h
  have accMono : ∀ e ∈ st.acc, e.name ≠ "" ∧ GoodName (pre ++ [l]) e.name :=
    fun e he => ⟨(hAcc e he).1, goodName_mono pre l e.name (hAcc e he).2⟩
  have curMono : ∀ c, st.cur = some c → c.isEmpty = false →
      GoodName (pre ++ [l]) (String.mk c) :=
    fun c hc hne => goodName_mono pre l _ (hCur c hc hne)
  have rejMono : st.inRej = true → ∃ m ∈ pre ++ [l], markerB m = true := by
    intro hr
    obtain ⟨m, hm, hmB⟩ := hRej hr
    exact ⟨m, by simp [hm], hmB⟩
  unfold rejStep
  cases hh : st.halted with
  | true =>
    rw [if_pos rfl]
    exact ⟨fun hf => absurd hf (by simp [hh]), rejMono, accMono, curMono⟩
  | false =>
    rw [if_neg (by simp)]
    have hPre : ∀ x ∈ pre, breakB x = false := hHalt hh
    cases hmk : markerB l with
    | true =>
      rw [if_pos rfl]
      refine ⟨fun _ x hx => ?_, fun _ => ⟨l, by simp, hmk⟩, accMono, curMono⟩
      rcases List.mem_append.mp hx with hx | hx
      · exact hPre x hx
      · simp at hx
        rw [hx]
        simp [breakB, hmk]
    | false =>
      rw [if_neg (by simp)]
      cases hbs : breakStartB l with
      | true =>
        rw [if_pos rfl]
        exact ⟨fun hf => by simp at hf, rejMono, accMono, curMono⟩
      | false =>
        rw [if_neg (by simp)]
        have hbrk : breakB l = false := by simp [breakB, hmk, hbs]
        have hPre2 : ∀ x ∈ pre ++ [l], breakB x = false := by
          intro x hx
          rcases List.mem_append.mp hx with hx | hx
          · exact hPre x hx
          · simp at hx
            rw [hx]
            exact hbrk
        cases hir : st.inRej && !(pyStripL l).isEmpty with
        | false =>
          rw [if_neg (by simp [hir])]
          exact ⟨fun _ => hPre2, rejMono, accMono, curMono⟩
        | true =>
          rw [if_pos (by simp [hir])]
          have hinr : st.inRej = true := by revert hir; cases st.inRej <;> simp
          cases hcol : hasColon (pyStripL l) && !isPrefixL [' '] (pyStripL l) with
          | true =>
            rw [if_pos (by simp [hcol])]
            have hcolon : hasColon (pyStripL l) = true := by
              revert hcol; cases hasColon (pyStripL l) <;> simp
            refine ⟨fun _ => hPre2, fun _ => rejMono hinr, ?_, ?_⟩
            · intro e he
              rcases mem_pushCur st e he with he2 | ⟨c, hcu, hcne, hee⟩
              · exact accMono e he2
              · rw [hee]
                exact ⟨stringMk_ne_empty c hcne, curMono c hcu hcne⟩
            · intro c hc hcne
              simp only [Option.some.injEq] at hc
              refine ⟨pre, l, [], rfl, hRej hinr, hPre, hbrk, hcolon, ?_⟩
              rw [← hc]
              rfl
          | false =>
            rw [if_neg (by simp [hcol])]
            split
            · split
              · exact ⟨fun _ => hPre2, fun _ => rejMono hinr, accMono, curMono⟩
              · exact ⟨fun _ => hPre2, fun _ => rejMono hinr, accMono, curMono⟩
            · exact ⟨fun _ => hPre2, fun _ => rejMono hinr, accMono, curMono⟩

theorem rejInv_init : RejInv [] ⟨false, false, none, [], []⟩ :=
  ⟨fun _ x hx => absurd hx (List.not_mem_nil x),
   fun h => Bool.noConfusion h,
   fun e he => absurd he (List.not_mem_nil e),
   fun _ hc => Option.noConfusion hc⟩

theorem rejInv_fold (rest : List (List Char)) :
    ∀ (pre : List (List Char)) (st : RejState),
      RejInv pre st → RejInv (pre ++ rest) (rejFold st rest) := by
  induction rest with
  | nil =>
    intro pre st h
    rw [List.append_nil]
    exact h
  | cons l rest ih =>
    intro pre st h
    have h3 := ih (pre ++ [l]) (rejStep st l) (rejInv_step pre st l h)
    rw [List.append_assoc] at h3
    exact h3

theorem rejectedOf_good (lines : List (List Char)) (e : RejectedCompany)
    (he : e ∈ rejectedOf lines) : e.name ≠ "" ∧ GoodName lines e.name := by
  have hinv := rejInv_fold lines [] ⟨false, false, none, [], []⟩ rejInv_init
  rw [List.nil_append] at hinv
  obtain ⟨hHalt, hRej, hAcc, hCur⟩ := hinv
  unfold rejectedOf at he
  rcases mem_pushCur _ e he with he2 | ⟨c, hcu, hcne, hee⟩
  · exact hAcc e he2
  · rw [hee]
    exact ⟨stringMk_ne_empty c hcne, hCur c hcu hcne⟩

/-! ## Claim C10 -/

/-- C10, amended: every entry of `rejected_companies` has a non-empty
name, and arises only from a line containing `':'` that comes after a
line mentioning `companies that were not selected` and before any line
on which the loop breaks (`Overall,` / `In conclusion`), with the name
taken from before the first `':'` of that header line.  (The reason,
unlike the claim as frozen states, may be empty: `C10_counterexample`
shows a header line with nothing after its colon.) -/
theorem C10_rejected_invariant (text : String) (e : RejectedCompany)
    (he : e ∈ (parse_text_decision text).rejected_companies) :
    e.name ≠ "" ∧ GoodName (splitNl (pyStripL text.data)) e.name :=
  rejectedOf_good (splitNl (pyStripL text.data)) e he

/-- C10 witness: the entry parsed from a small rejected section has a
non-empty name with the stated provenance. -/
theorem C10_witness :
    (RejectedCompany.mk "Beta" "too small").name ≠ "" ∧
    GoodName
      (splitNl (pyStripL "The companies that were not selected:\nBeta: too small".data))
      (RejectedCompany.mk "Beta" "too small").name :=
  C10_rejected_invariant "The companies that were not selected:\nBeta: too small"
    ⟨"Beta", "too small"⟩ (by decide)

/-- C10, counterexample to the claim as frozen: a header line whose
colon ends the line yields an entry whose reason is the empty string. -/
theorem C10_counterexample :
    ∃ e ∈ (parse_text_decision
        "The companies that were not selected:\nAcme:").rejected_companies,
      e.reason = "" := by decide

end StockPicker
